import Mathlib

/-!
Verification of the manifest-resolution, scope-validation and native-messaging
logic of `src/extension/src/sites/install.js` (PWAforFirefox browser
extension).

The JavaScript is embedded shallowly:

* URL strings are lists of characters (`Chars`).  The WHATWG `URL`
  constructor, as used by the extension on hierarchical `scheme://host/...`
  URLs, is modelled by `parseAbsolute` / `resolveRef` / `newURL`, with
  `href` the serializer and `origin` the `.origin` accessor.  The model
  covers the hierarchical (http/https-style) URLs the extension handles:
  scheme, lower-cased host, optional port with default-port elision, dot
  segment normalization of paths, query and fragment.
* The manifest object fetched as JSON is a `Manifest` record whose optional
  fields are `Option` values; `obtainManifest` embeds the post-fetch
  resolution and validation logic of the JS function of the same name
  (the network fetch itself is abstracted as the input record).
* Thrown JS exceptions are `Except.error` values.
* DOM/UI state touched by the handlers is carried in explicit records
  (`SubmitUI`, `ProfileSelect`) and each event handler is a state
  transition function.
-/

/-! ## Character-list strings and generic list helpers -/

abbrev Chars := List Char

/-- Convert a Lean string literal to the character-list representation. -/
def str (s : String) : Chars := s.data

/-- Split a list at the first character satisfying `stop`:
returns the characters before it and the remainder (starting with it). -/
def spanNot (stop : Char → Bool) : Chars → Chars × Chars
  | [] => ([], [])
  | c :: cs =>
    if stop c then ([], c :: cs)
    else
      let (a, b) := spanNot stop cs
      (c :: a, b)

/-- Split a list at the first occurrence of `c`: the part before it and,
if `c` occurs, the part after it (the separator itself is dropped). -/
def breakAt (c : Char) : Chars → Chars × Option Chars
  | [] => ([], none)
  | x :: xs =>
    if x == c then ([], some xs)
    else
      let (a, b) := breakAt c xs
      (x :: a, b)

/-! ## URL model -/

/-- ASCII lower-casing as applied by the URL parser to scheme and host. -/
def lowerChar (c : Char) : Char :=
  if 'A' ≤ c ∧ c ≤ 'Z' then Char.ofNat (c.toNat + 32) else c

/-- Characters allowed in a URL scheme. -/
def isSchemeChar (c : Char) : Bool :=
  c.isAlpha || c.isDigit || c == '+' || c == '-' || c == '.'

/-- Characters that terminate the authority component. -/
def isAuthorityEnd (c : Char) : Bool :=
  c == '/' || c == '?' || c == '#'

/-- Split a path body (without its leading slash) into `/`-separated
segments.  `splitSegs [] = [[]]`, matching the empty path body. -/
def splitSegs : Chars → List Chars
  | [] => [[]]
  | c :: cs =>
    if c == '/' then [] :: splitSegs cs
    else
      match splitSegs cs with
      | s :: rest => (c :: s) :: rest
      | [] => [[c]]

/-- Join segments back with `/` separators. -/
def joinSegs : List Chars → Chars
  | [] => []
  | [s] => s
  | s :: rest => s ++ '/' :: joinSegs rest

/-- A segment that is neither `.` nor `..`. -/
def nodotSeg (s : Chars) : Bool :=
  s != str "." && s != str ".."

/-- Dot-segment removal on a segment list (the WHATWG "shorten and append"
path state machine): `..` pops the last output segment, `.` is dropped;
a trailing `.` or `..` leaves a trailing empty segment (trailing slash). -/
def normSegs : List Chars → List Chars → List Chars
  | acc, [] => acc
  | acc, s :: rest =>
    if s == str ".." then
      if rest.isEmpty then acc.dropLast ++ [[]] else normSegs acc.dropLast rest
    else if s == str "." then
      if rest.isEmpty then acc ++ [[]] else normSegs acc rest
    else normSegs (acc ++ [s]) rest

/-- Normalize a path that starts with `/`. -/
def normPath (p : Chars) : Chars :=
  '/' :: joinSegs (normSegs [] (splitSegs (p.drop 1)))

/-- A parsed URL record, the model of a `URL` object. -/
structure URLRec where
  scheme : Chars
  host : Chars
  port : Option Chars
  pathname : Chars
  query : Option Chars
  fragment : Option Chars
deriving DecidableEq

/-- Validate and normalize a port: an absent or empty port is no port,
a digit port equal to the scheme's default is elided, anything else
with a non-digit is a parse error (`none`). -/
def parsePort (scheme : Chars) : Option Chars → Option (Option Chars)
  | none => some none
  | some [] => some none
  | some p =>
    if !p.all Char.isDigit then none
    else if (scheme == str "https" && p == str "443")
         || (scheme == str "http" && p == str "80") then some none
    else some (some p)

/-- Parse an absolute `scheme://host[:port][/path][?query][#fragment]`
URL string; `none` models a thrown `TypeError` of the `URL` constructor. -/
def parseAbsolute (s : Chars) : Option URLRec :=
  let (schemeRaw, rest1) := spanNot (fun c => c == ':') s
  match rest1 with
  | ':' :: '/' :: '/' :: rest2 =>
    if schemeRaw.isEmpty || !schemeRaw.all isSchemeChar then none
    else
      let (auth, rest3) := spanNot isAuthorityEnd rest2
      let (hostRaw, portRaw) := breakAt ':' auth
      if hostRaw.isEmpty then none
      else
        match parsePort (schemeRaw.map lowerChar) portRaw with
        | none => none
        | some port =>
          let (beforeHash, frag) := breakAt '#' rest3
          let (pathRaw, query) := breakAt '?' beforeHash
          some { scheme := schemeRaw.map lowerChar
                 host := hostRaw.map lowerChar
                 port := port
                 pathname := normPath (if pathRaw.isEmpty then str "/" else pathRaw)
                 query := query
                 fragment := frag }
  | _ => none

/-- Serialize the port component. -/
def portSer : Option Chars → Chars
  | none => []
  | some p => ':' :: p

/-- Serialize the query component. -/
def querySer : Option Chars → Chars
  | none => []
  | some q => '?' :: q

/-- Serialize the fragment component. -/
def fragSer : Option Chars → Chars
  | none => []
  | some f => '#' :: f

/-- The `.href` serialization of a URL record. -/
def href (u : URLRec) : Chars :=
  u.scheme ++ str "://" ++ u.host ++ portSer u.port
    ++ u.pathname ++ querySer u.query ++ fragSer u.fragment

/-- The `.origin` accessor: scheme, host and explicit port. -/
def origin (u : URLRec) : Chars :=
  u.scheme ++ str "://" ++ u.host ++ portSer u.port

/-- Resolve a reference string against a base URL record, following the
hierarchical cases of the WHATWG basic URL parser with base. -/
def resolveRef (ref : Chars) (base : URLRec) : Option URLRec :=
  match parseAbsolute ref with
  | some u => some u
  | none =>
    match ref with
    | '/' :: '/' :: rest => parseAbsolute (base.scheme ++ str "://" ++ rest)
    | '/' :: _ =>
      let (beforeHash, frag) := breakAt '#' ref
      let (pathRaw, query) := breakAt '?' beforeHash
      some { base with pathname := normPath pathRaw, query := query, fragment := frag }
    | '?' :: restQ =>
      let (query, frag) := breakAt '#' restQ
      some { base with query := some query, fragment := frag }
    | '#' :: restF => some { base with fragment := some restF }
    | [] => some { base with fragment := none }
    | _ =>
      let (beforeHash, frag) := breakAt '#' ref
      let (pathRaw, query) := breakAt '?' beforeHash
      let merged := (splitSegs (base.pathname.drop 1)).dropLast ++ splitSegs pathRaw
      some { base with
               pathname := '/' :: joinSegs (normSegs [] merged),
               query := query,
               fragment := frag }

/-- The two-argument `new URL(input, base)` constructor: the base string is
parsed first, then the input is resolved against it. -/
def newURL (input base : Chars) : Option URLRec :=
  match parseAbsolute base with
  | none => none
  | some b => resolveRef input b

/-- Well-formedness of a URL record: exactly the records that are fixed
points of serialize-then-parse (normalized scheme/host case, no default
port, normalized dot-free path, no separator characters where they would
be re-interpreted). -/
def wf (u : URLRec) : Bool :=
  !u.scheme.isEmpty
    && u.scheme.all (fun c => isSchemeChar c && lowerChar c == c)
    && !u.host.isEmpty
    && u.host.all (fun c => !isAuthorityEnd c && c != ':' && lowerChar c == c)
    && (match u.port with
        | none => true
        | some p =>
          !p.isEmpty && p.all Char.isDigit
            && !((u.scheme == str "https" && p == str "443")
                 || (u.scheme == str "http" && p == str "80")))
    && (u.pathname.headD ' ' == '/')
    && u.pathname.all (fun c => c != '?' && c != '#')
    && (splitSegs (u.pathname.drop 1)).all nodotSeg
    && (match u.query with
        | none => true
        | some q => q.all (fun c => c != '#'))

/-! ## Manifest resolution and validation (`obtainManifest`) -/

/-- The manifest object decoded from the fetched JSON, with the fields the
extension reads.  `none` models an absent JSON field (`undefined`). -/
structure Manifest where
  name : Option Chars
  short_name : Option Chars
  description : Option Chars
  categories : Option (List Chars)
  keywords : Option (List Chars)
  start_url : Option Chars
  scope : Option Chars
deriving DecidableEq

/-- Errors thrown while resolving and validating a manifest:
`malformedUrl` is a `TypeError` of the `URL` constructor,
`crossOriginStartUrl` the thrown
`Error('Start and document URL are not in the same origin')`, and
`outOfScope` the thrown `Error('Start URL is not within the scope')`. -/
inductive ObtainError
  | malformedUrl
  | crossOriginStartUrl
  | outOfScope
deriving DecidableEq

/-- JavaScript truthiness of an optional string field:
`undefined` and the empty string are falsy. -/
def truthy : Option Chars → Bool
  | some (_ :: _) => true
  | _ => false

/-- Lines 17-22 of install.js: if `manifest.start_url` is truthy it is
resolved with `new URL(manifest.start_url, documentUrl)` (the document URL
is the base actually passed, despite the comment in the source), otherwise
the raw document URL string is used. -/
def resolveStartUrl (m : Manifest) (documentUrl : Chars) : Except ObtainError Chars :=
  if truthy m.start_url then
    match newURL (m.start_url.getD []) documentUrl with
    | some u => .ok (href u)
    | none => .error .malformedUrl
  else .ok documentUrl

/-- Lines 26-32 of install.js: if `manifest.scope` is truthy it is resolved
against the document URL, otherwise it defaults to `.` resolved against the
already-resolved start URL. -/
def resolveScope (m : Manifest) (documentUrl startStr : Chars) : Except ObtainError Chars :=
  if truthy m.scope then
    match newURL (m.scope.getD []) documentUrl with
    | some u => .ok (href u)
    | none => .error .malformedUrl
  else
    match newURL (str ".") startStr with
    | some u => .ok (href u)
    | none => .error .malformedUrl

/-- Lines 35-40 of install.js: re-parse the three URL strings and check
origin binding against the document URL first, then scope containment
(`startsWith` on pathnames, a raw string-prefix test). -/
def validateManifest (startStr scopeStr documentUrl : Chars) : Except ObtainError Unit :=
  match parseAbsolute startStr, parseAbsolute scopeStr, parseAbsolute documentUrl with
  | some su, some sc, some du =>
    if origin su != origin du then .error .crossOriginStartUrl
    else if origin su != origin sc || !(sc.pathname.isPrefixOf su.pathname) then
      .error .outOfScope
    else .ok ()
  | _, _, _ => .error .malformedUrl

/-- The resolution/validation body of `obtainManifest` (install.js lines
11-44), after the network fetch and JSON decode abstracted by the input
record.  Note that the `manifestUrl` parameter of the JS function is not
used after the fetch, so it does not appear here. -/
def obtainManifest (m : Manifest) (documentUrl : Chars) : Except ObtainError Manifest :=
  match resolveStartUrl m documentUrl with
  | .error e => .error e
  | .ok startStr =>
    match resolveScope m documentUrl startStr with
    | .error e => .error e
    | .ok scopeStr =>
      match validateManifest startStr scopeStr documentUrl with
      | .error e => .error e
      | .ok _ => .ok { m with start_url := some startStr, scope := some scopeStr }

/-! ## Live start-URL validation (`startUrlValidation`) -/

/-- Outcome of the start-URL input validator: `valid` is
`setCustomValidity('')`, `invalidUrl` the type-mismatch message,
`outOfScope` the "needs to be within the scope" message, and
`scopeUnparseable` models the exception `new URL(manifest.scope)` would
throw (unreachable for manifests accepted at load time). -/
inductive StartUrlVerdict
  | valid
  | invalidUrl
  | outOfScope
  | scopeUnparseable
deriving DecidableEq

/-- Lines 205-231 of install.js: the `startUrlValidation` handler.  An empty
value is accepted; a value that does not parse as a URL is rejected as
invalid; otherwise the value must share the manifest scope's origin and the
scope's pathname must be a string prefix of the value's pathname.  The
document URL is not consulted here. -/
def startUrlValidation (value scopeStr : Chars) : StartUrlVerdict :=
  if value.isEmpty then .valid
  else
    match parseAbsolute value with
    | none => .invalidUrl
    | some su =>
      match parseAbsolute scopeStr with
      | none => .scopeUnparseable
      | some sc =>
        if origin su != origin sc || !(sc.pathname.isPrefixOf su.pathname) then
          .outOfScope
        else .valid

/-! ## Native-messaging protocol client -/

/-- A decoded native-peer response `{type, data}`. -/
structure NativeResponse (α : Type) where
  type : Chars
  data : α
deriving DecidableEq

/-- Failures of a native call: the peer-reported error (message is the
peer-supplied `data`) or an unexpected response tag (carrying the received
`type`). -/
inductive PeerFailure (α : Type)
  | nativePeerError (message : α)
  | protocolMismatch (received : Chars)
deriving DecidableEq

/-- The response-discrimination pattern repeated at every native call site
(install.js lines 49-51, 61-63, 153-154, 277-279): an `Error` type fails
with the peer data as message, any type other than the expected tag fails
with a mismatch error naming the received type, and otherwise the data is
returned. -/
def handleNativeResponse {α : Type} (expected : Chars) (r : NativeResponse α) :
    Except (PeerFailure α) α :=
  if r.type = str "Error" then .error (.nativePeerError r.data)
  else if r.type ≠ expected then .error (.protocolMismatch r.type)
  else .ok r.data

/-- Response handling of `obtainSiteList` (expected tag `SiteList`). -/
def obtainSiteList {α : Type} (r : NativeResponse α) : Except (PeerFailure α) α :=
  handleNativeResponse (str "SiteList") r

/-- Response handling of `obtainProfileList` (expected tag `ProfileList`). -/
def obtainProfileList {α : Type} (r : NativeResponse α) : Except (PeerFailure α) α :=
  handleNativeResponse (str "ProfileList") r

/-- Response handling of the `CreateProfile` call (tag `ProfileCreated`). -/
def createProfileResponse {α : Type} (r : NativeResponse α) : Except (PeerFailure α) α :=
  handleNativeResponse (str "ProfileCreated") r

/-- Response handling of the `InstallSite` call (tag `SiteInstalled`). -/
def installSiteResponse {α : Type} (r : NativeResponse α) : Except (PeerFailure α) α :=
  handleNativeResponse (str "SiteInstalled") r

/-- The `message` of the thrown error, as displayed in the error toast. -/
def peerErrorMessage : PeerFailure Chars → Chars
  | .nativePeerError msg => msg
  | .protocolMismatch t => str "Received invalid response type: " ++ t

/-! ## Category/keyword diffing and install-request assembly -/

/-- `Array.prototype.toString` on an array of strings: `join(',')`. -/
def joinComma : List Chars → Chars
  | [] => []
  | [s] => s
  | s :: rest => s ++ ',' :: joinComma rest

/-- Lines 255 and 259 of install.js: the user list is sent as an override
exactly when its `toString()` differs from the manifest list's
`toString()`; otherwise the empty list is sent. -/
def overrideIfChanged (user manifestList : List Chars) : List Chars :=
  if joinComma user != joinComma manifestList then user else []

/-- A thrown JavaScript runtime error. -/
inductive JsError
  | typeError
deriving DecidableEq

/-- The categories (resp. keywords) field of the install request: when the
manifest field is absent (`undefined`), `manifestCategories.toString()`
throws a `TypeError`. -/
def categoriesOverride (user : List Chars) (manifestField : Option (List Chars)) :
    Except JsError (List Chars) :=
  match manifestField with
  | none => .error .typeError
  | some m => .ok (overrideIfChanged user m)

/-- `value || null` on a text input: the empty string becomes `null`. -/
def orNull (s : Chars) : Option Chars :=
  if s.isEmpty then none else some s

/-- The `params` object of the `InstallSite` native message. -/
structure InstallParams where
  manifest_url : Chars
  document_url : Chars
  start_url : Option Chars
  profile : Option Chars
  name : Option Chars
  description : Option Chars
  categories : List Chars
  keywords : List Chars
deriving DecidableEq

/-- Lines 246-271 of install.js: assembly of the `InstallSite` request from
the form inputs and the resolved manifest.  Categories are computed before
keywords, so an absent `manifest.categories` throws first. -/
def assembleInstallParams (manifestUrl documentUrl startInput profileInput
    nameInput descriptionInput : Chars) (userCategories userKeywords : List Chars)
    (m : Manifest) : Except JsError InstallParams :=
  match categoriesOverride userCategories m.categories with
  | .error e => .error e
  | .ok cats =>
    match categoriesOverride userKeywords m.keywords with
    | .error e => .error e
    | .ok kws =>
      .ok { manifest_url := manifestUrl
            document_url := documentUrl
            start_url := orNull startInput
            profile := orNull profileInput
            name := orNull nameInput
            description := orNull descriptionInput
            categories := cats
            keywords := kws }

/-! ## Submit flow UI state -/

/-- The submit-button and error-toast state touched by `submit.onclick`. -/
structure SubmitUI where
  submitDisabled : Bool
  submitText : Chars
  errorText : Chars
  errorToastVisible : Bool
deriving DecidableEq

/-- The Ready state established at the end of `initializeForm`:
submit enabled with its idle label. -/
def readyUI : SubmitUI :=
  { submitDisabled := false
    submitText := str "Install web app"
    errorText := []
    errorToastVisible := false }

/-- Lines 240-299 of install.js: the submit handler after a successful form
validity check, given the peer's `InstallSite` response.  The button is
disabled and relabelled, the call is discriminated; on success the toast is
hidden and the button shows success (still disabled); on failure the catch
block shows the error text and toast — it never re-enables the button. -/
def submitFlow (ui : SubmitUI) (r : NativeResponse Chars) : SubmitUI :=
  let ui1 : SubmitUI :=
    { ui with submitDisabled := true, submitText := str "Installing web app..." }
  match installSiteResponse r with
  | .ok _ =>
    { ui1 with
        errorToastVisible := false
        submitDisabled := true
        submitText := str "Web app installed!" }
  | .error e =>
    { ui1 with errorText := peerErrorMessage e, errorToastVisible := true }

/-! ## Profile selection state -/

/-- The profile `<select>` element together with the module-level
`lastProfileSelection` variable. -/
structure ProfileSelect where
  options : List (Chars × Chars)
  value : Chars
  lastProfileSelection : Chars
deriving DecidableEq

/-- Lines 124-132 of install.js: the `change` event handler, fired by a user
selection after the select's value has changed.  A real selection is
recorded as the last selection; picking the create-new-profile sentinel
only opens the modal. -/
def profileChange (st : ProfileSelect) (newValue : Chars) : ProfileSelect :=
  if newValue ≠ str "create-new-profile" then
    { st with value := newValue, lastProfileSelection := newValue }
  else { st with value := newValue }

/-- Lines 134-136 of install.js: the cancel button restores the select's
value from `lastProfileSelection`. -/
def profileCancel (st : ProfileSelect) : ProfileSelect :=
  { st with value := st.lastProfileSelection }

/-- Line 166 of install.js on the success path of the create handler:
`profilesElement.add(new Option(name, id, true, true))` appends the new
option and selects it.  Setting the selection programmatically does not
fire a `change` event, so `lastProfileSelection` is not touched. -/
def profileCreateConfirm (st : ProfileSelect) (pname pid : Chars) : ProfileSelect :=
  { st with options := st.options ++ [(pname, pid)], value := pid }

/-! ## Concrete fixtures used by witnesses and counterexamples -/

/-- A manifest JSON object with none of the optional fields present. -/
def emptyManifest : Manifest := ⟨none, none, none, none, none, none, none⟩

/-- A native `Error` response carrying the peer message `boom`. -/
def errorResponse : NativeResponse Chars := ⟨str "Error", str "boom"⟩

/-- A profile select with one profile `p1`, selected and recorded. -/
def oneProfileSelect : ProfileSelect :=
  ⟨[(str "Default", str "p1")], str "p1", str "p1"⟩

/-- A manifest carrying every optional metadata field, a relative start URL
and no scope, as fetched. -/
def c10Manifest : Manifest :=
  ⟨some (str "Example"), none, some (str "Desc"), some [str "news"],
   some [str "k1"], some (str "/app"), none⟩

/-- The manifest `c10Manifest` after resolution against the document URL
`https://x.test/app/page`. -/
def c10Resolved : Manifest :=
  { c10Manifest with
      start_url := some (str "https://x.test/app")
      scope := some (str "https://x.test/") }

/-! ## Helper lemmas: list splitting -/

theorem spanNot_append_stop (p : Char → Bool) (l : Chars) (c : Char) (r : Chars)
    (hl : ∀ x ∈ l, p x = false) (hc : p c = true) :
    spanNot p (l ++ c :: r) = (l, c :: r) := by
  induction l with
  | nil => simp [spanNot, hc]
  | cons a l ih =>
    have ha : p a = false := hl a (List.mem_cons_self a l)
    have ih2 := ih (fun x hx => hl x (List.mem_cons_of_mem a hx))
    simp [spanNot, ha, ih2]

theorem breakAt_not_mem (c : Char) (l : Chars) (h : ∀ x ∈ l, (x == c) = false) :
    breakAt c l = (l, none) := by
  induction l with
  | nil => rfl
  | cons a l ih =>
    have ha : (a == c) = false := h a (List.mem_cons_self a l)
    have ih2 := ih (fun x hx => h x (List.mem_cons_of_mem a hx))
    simp [breakAt, ha, ih2]

theorem breakAt_append (c : Char) (l r : Chars) (h : ∀ x ∈ l, (x == c) = false) :
    breakAt c (l ++ c :: r) = (l, some r) := by
  induction l with
  | nil => simp [breakAt]
  | cons a l ih =>
    have ha : (a == c) = false := h a (List.mem_cons_self a l)
    have ih2 := ih (fun x hx => h x (List.mem_cons_of_mem a hx))
    simp [breakAt, ha, ih2]

theorem map_id_on {f : Char → Char} {l : Chars} (h : ∀ x ∈ l, f x = x) :
    l.map f = l := by
  induction l with
  | nil => rfl
  | cons a l ih =>
    simp [h a (List.mem_cons_self a l), ih (fun x hx => h x (List.mem_cons_of_mem a hx))]

/-! ## Helper lemmas: path segments -/

theorem splitSegs_ne_nil (l : Chars) : splitSegs l ≠ [] := by
  cases l with
  | nil => simp [splitSegs]
  | cons c cs =>
    simp only [splitSegs]
    split
    · simp
    · cases h : splitSegs cs <;> simp

theorem joinSegs_splitSegs (l : Chars) : joinSegs (splitSegs l) = l := by
  induction l with
  | nil => rfl
  | cons c cs ih =>
    by_cases hc : c = '/'
    · subst hc
      obtain ⟨s, rest, hsr⟩ := List.exists_cons_of_ne_nil (splitSegs_ne_nil cs)
      rw [hsr] at ih
      have h1 : splitSegs ('/' :: cs) = [] :: s :: rest := by
        simp [splitSegs, hsr]
      rw [h1]
      show ([] : Chars) ++ '/' :: joinSegs (s :: rest) = '/' :: cs
      rw [List.nil_append, ih]
    · obtain ⟨s, rest, hsr⟩ := List.exists_cons_of_ne_nil (splitSegs_ne_nil cs)
      have hcb : (c == '/') = false := beq_eq_false_iff_ne.mpr hc
      have h1 : splitSegs (c :: cs) = (c :: s) :: rest := by
        simp only [splitSegs, hcb, Bool.false_eq_true, if_false, hsr]
      rw [h1]
      rw [hsr] at ih
      cases rest with
      | nil =>
        show c :: s = c :: cs
        rw [show joinSegs [s] = s from rfl] at ih
        rw [ih]
      | cons r1 r2 =>
        show (c :: s) ++ '/' :: joinSegs (r1 :: r2) = c :: cs
        rw [show joinSegs (s :: r1 :: r2) = s ++ '/' :: joinSegs (r1 :: r2) from rfl] at ih
        rw [List.cons_append, ih]

theorem nodotSeg_not_dotdot {s : Chars} (h : nodotSeg s = true) :
    (s == str "..") = false := by
  simp only [nodotSeg, Bool.and_eq_true, bne_iff_ne] at h
  exact beq_eq_false_iff_ne.mpr h.2

theorem nodotSeg_not_dot {s : Chars} (h : nodotSeg s = true) :
    (s == str ".") = false := by
  simp only [nodotSeg, Bool.and_eq_true, bne_iff_ne] at h
  exact beq_eq_false_iff_ne.mpr h.1

theorem normSegs_append_nodot (l : List Chars) (hl : ∀ s ∈ l, nodotSeg s = true) :
    ∀ (acc r : List Chars), normSegs acc (l ++ r) = normSegs (acc ++ l) r := by
  induction l with
  | nil => intro acc r; simp
  | cons s l ih =>
    intro acc r
    have hs := hl s (List.mem_cons_self s l)
    have ih2 := ih (fun x hx => hl x (List.mem_cons_of_mem s hx))
    rw [List.cons_append]
    rw [show normSegs acc (s :: (l ++ r)) =
        if s == str ".." then
          (if (l ++ r).isEmpty then acc.dropLast ++ [[]] else normSegs acc.dropLast (l ++ r))
        else if s == str "." then
          (if (l ++ r).isEmpty then acc ++ [[]] else normSegs acc (l ++ r))
        else normSegs (acc ++ [s]) (l ++ r) from rfl]
    rw [nodotSeg_not_dotdot hs, nodotSeg_not_dot hs]
    simp only [Bool.false_eq_true, if_false]
    rw [ih2 (acc ++ [s]) r, List.append_assoc, List.singleton_append]

theorem normSegs_nodot (l : List Chars) (hl : ∀ s ∈ l, nodotSeg s = true) :
    normSegs [] l = l := by
  have := normSegs_append_nodot l hl [] []
  simpa using this

theorem normSegs_dot_end (l : List Chars) (hl : ∀ s ∈ l, nodotSeg s = true) :
    normSegs [] (l ++ [str "."]) = l ++ [[]] := by
  rw [normSegs_append_nodot l hl [] [str "."], List.nil_append]
  rfl

/-! ## Helper lemmas: slash-free segments -/

/-- A segment containing no separator character. -/
def noSlash (s : Chars) : Bool := s.all (fun c => c != '/')

theorem splitSegs_noSlash (l : Chars) : ∀ s ∈ splitSegs l, noSlash s = true := by
  induction l with
  | nil => intro s hs; simp [splitSegs] at hs; simp [hs, noSlash]
  | cons c cs ih =>
    intro s hs
    by_cases hc : c = '/'
    · subst hc
      simp only [splitSegs, beq_self_eq_true, if_true] at hs
      rcases List.mem_cons.mp hs with h1 | h2
      · simp [h1, noSlash]
      · exact ih s h2
    · have hcb : (c == '/') = false := beq_eq_false_iff_ne.mpr hc
      obtain ⟨s0, rest, hsr⟩ := List.exists_cons_of_ne_nil (splitSegs_ne_nil cs)
      simp only [splitSegs, hcb, Bool.false_eq_true, if_false, hsr] at hs
      rcases List.mem_cons.mp hs with h1 | h2
      · subst h1
        have hs0 : noSlash s0 = true := ih s0 (hsr ▸ List.mem_cons_self s0 rest)
        simp only [noSlash, List.all_cons, Bool.and_eq_true, bne_iff_ne]
        exact ⟨hc, by simpa [noSlash] using hs0⟩
      · exact ih s (hsr ▸ List.mem_cons_of_mem s0 h2)

theorem splitSegs_of_noSlash (l : Chars) (h : noSlash l = true) :
    splitSegs l = [l] := by
  induction l with
  | nil => rfl
  | cons c cs ih =>
    simp only [noSlash, List.all_cons, Bool.and_eq_true, bne_iff_ne] at h
    have hcb : (c == '/') = false := beq_eq_false_iff_ne.mpr h.1
    have ih2 := ih (by simp [noSlash, h.2])
    simp [splitSegs, hcb, ih2]

theorem splitSegs_append_slash (l r : Chars) (h : noSlash l = true) :
    splitSegs (l ++ '/' :: r) = l :: splitSegs r := by
  induction l with
  | nil => simp [splitSegs]
  | cons c cs ih =>
    simp only [noSlash, List.all_cons, Bool.and_eq_true, bne_iff_ne] at h
    have hcb : (c == '/') = false := beq_eq_false_iff_ne.mpr h.1
    have ih2 := ih (by simp [noSlash, h.2])
    simp [splitSegs, hcb, ih2]

theorem splitSegs_joinSegs (segs : List Chars) (hne : segs ≠ [])
    (h : ∀ s ∈ segs, noSlash s = true) :
    splitSegs (joinSegs segs) = segs := by
  induction segs with
  | nil => exact absurd rfl hne
  | cons s rest ih =>
    cases rest with
    | nil =>
      rw [show joinSegs [s] = s from rfl]
      exact splitSegs_of_noSlash s (h s (List.mem_cons_self s []))
    | cons s1 r2 =>
      rw [show joinSegs (s :: s1 :: r2) = s ++ '/' :: joinSegs (s1 :: r2) from rfl]
      rw [splitSegs_append_slash _ _ (h s (List.mem_cons_self s _))]
      rw [ih (by simp) (fun x hx => h x (List.mem_cons_of_mem s hx))]

theorem joinSegs_append_single (l : List Chars) (s : Chars) (hne : l ≠ []) :
    joinSegs (l ++ [s]) = joinSegs l ++ '/' :: s := by
  induction l with
  | nil => exact absurd rfl hne
  | cons a l ih =>
    cases l with
    | nil => rfl
    | cons b l2 =>
      rw [show (a :: b :: l2) ++ [s] = a :: ((b :: l2) ++ [s]) from rfl]
      rw [show joinSegs (a :: (b :: l2 ++ [s])) = a ++ '/' :: joinSegs (b :: l2 ++ [s]) from
        by cases l2 <;> rfl]
      rw [ih (by simp)]
      rw [show joinSegs (a :: b :: l2) = a ++ '/' :: joinSegs (b :: l2) from rfl]
      simp [List.append_assoc]

theorem mem_of_mem_dropLast {α : Type} {l : List α} {x : α} (h : x ∈ l.dropLast) :
    x ∈ l :=
  (List.dropLast_sublist l).subset h

theorem joinSegs_all (q : Char → Bool) (segs : List Chars) (hq : q '/' = true)
    (h : ∀ s ∈ segs, s.all q = true) : (joinSegs segs).all q = true := by
  induction segs with
  | nil => rfl
  | cons s rest ih =>
    cases rest with
    | nil => exact h s (List.mem_cons_self s [])
    | cons s1 r2 =>
      rw [show joinSegs (s :: s1 :: r2) = s ++ '/' :: joinSegs (s1 :: r2) from rfl]
      rw [List.all_append]
      rw [h s (List.mem_cons_self s _)]
      rw [List.all_cons, hq]
      rw [ih (fun x hx => h x (List.mem_cons_of_mem s hx))]
      rfl

theorem isPrefixOf_append_self (l t : Chars) : l.isPrefixOf (l ++ t) = true := by
  induction l with
  | nil => cases t <;> rfl
  | cons a l ih => simp [List.isPrefixOf, ih]

/-! ## Helper lemmas: character classes -/

theorem schemeChar_not_colon {c : Char} (h : isSchemeChar c = true) :
    (c == ':') = false := by
  by_cases hc : c = ':'
  · subst hc; exact absurd h (by decide)
  · exact beq_eq_false_iff_ne.mpr hc

theorem digit_not_authorityEnd {c : Char} (h : c.isDigit = true) :
    isAuthorityEnd c = false := by
  by_cases h1 : c = '/'
  · subst h1; exact absurd h (by decide)
  · by_cases h2 : c = '?'
    · subst h2; exact absurd h (by decide)
    · by_cases h3 : c = '#'
      · subst h3; exact absurd h (by decide)
      · simp [isAuthorityEnd, beq_eq_false_iff_ne.mpr h1,
          beq_eq_false_iff_ne.mpr h2, beq_eq_false_iff_ne.mpr h3]


/-! ## Boolean helper lemmas -/

theorem bandSplit {a b : Bool} (h : (a && b) = true) : a = true ∧ b = true := by
  cases a <;> cases b <;> simp_all

theorem bnotTrue {a : Bool} (h : (!a) = true) : a = false := by
  cases a
  · rfl
  · exact absurd h (by decide)

/-! ## The serialize-parse round trip -/

theorem parse_href (u : URLRec) (h : wf u = true) : parseAbsolute (href u) = some u := by
  obtain ⟨sch, host, port, path, query, frag⟩ := u
  simp only [wf, Bool.and_eq_true] at h
  obtain ⟨⟨⟨⟨⟨⟨⟨⟨hsne, hsch⟩, hhne⟩, hhost⟩, hport⟩, hpath0⟩, hpathc⟩, hnodot⟩, hquery⟩ := h
  -- the pathname starts with a slash
  obtain ⟨pt, rfl⟩ : ∃ pt, path = '/' :: pt := by
    cases path with
    | nil => exact absurd hpath0 (by decide)
    | cons c pt =>
      refine ⟨pt, ?_⟩
      have : (c == '/') = true := hpath0
      rw [beq_iff_eq.mp this]
  -- component facts
  have hschAll : ∀ c ∈ sch, isSchemeChar c = true := by
    intro c hc
    exact (bandSplit ((List.all_eq_true.mp hsch) c hc)).1
  have hschA : sch.all isSchemeChar = true := List.all_eq_true.mpr hschAll
  have hschLower : sch.map lowerChar = sch :=
    map_id_on (fun c hc =>
      beq_iff_eq.mp (bandSplit ((List.all_eq_true.mp hsch) c hc)).2)
  have hhostLower : host.map lowerChar = host :=
    map_id_on (fun c hc =>
      beq_iff_eq.mp (bandSplit ((List.all_eq_true.mp hhost) c hc)).2)
  have hhostAuth : ∀ c ∈ host, isAuthorityEnd c = false := by
    intro c hc
    exact bnotTrue (bandSplit (bandSplit ((List.all_eq_true.mp hhost) c hc)).1).1
  have hhostColon : ∀ c ∈ host, (c == ':') = false := by
    intro c hc
    have h2 := (bandSplit (bandSplit ((List.all_eq_true.mp hhost) c hc)).1).2
    exact beq_eq_false_iff_ne.mpr (bne_iff_ne.mp h2)
  have hpathQ : ∀ c ∈ ('/' :: pt), (c == '?') = false := by
    intro c hc
    have := (List.all_eq_true.mp hpathc) c hc
    exact beq_eq_false_iff_ne.mpr (bne_iff_ne.mp (bandSplit this).1)
  have hpathH : ∀ c ∈ ('/' :: pt), (c == '#') = false := by
    intro c hc
    have := (List.all_eq_true.mp hpathc) c hc
    exact beq_eq_false_iff_ne.mpr (bne_iff_ne.mp (bandSplit this).2)
  have hauthAll : ∀ x ∈ host ++ portSer port, isAuthorityEnd x = false := by
    intro x hx
    rcases List.mem_append.mp hx with h1 | h2
    · exact hhostAuth x h1
    · cases port with
      | none => simp [portSer] at h2
      | some p =>
        simp only [portSer, List.mem_cons] at h2
        rcases h2 with rfl | h3
        · decide
        · have hp : p.all Char.isDigit = true := (bandSplit (bandSplit hport).1).2
          exact digit_not_authorityEnd ((List.all_eq_true.mp hp) x h3)
  have hqueryH : ∀ x ∈ querySer query, (x == '#') = false := by
    intro x hx
    cases query with
    | none => simp [querySer] at hx
    | some q =>
      simp only [querySer, List.mem_cons] at hx
      rcases hx with rfl | h3
      · decide
      · have := (List.all_eq_true.mp hquery) x h3
        exact beq_eq_false_iff_ne.mpr (bne_iff_ne.mp this)
  -- serialized form, right-associated
  have hhref : href ⟨sch, host, port, '/' :: pt, query, frag⟩ =
      sch ++ ':' :: '/' :: '/' ::
        (host ++ (portSer port ++ ('/' :: (pt ++ (querySer query ++ fragSer frag))))) := by
    simp [href, show str "://" = [':', '/', '/'] from rfl, List.append_assoc]
  rw [hhref]
  -- scheme splitting
  have e1 : spanNot (fun c => c == ':')
      (sch ++ ':' :: '/' :: '/' ::
        (host ++ (portSer port ++ ('/' :: (pt ++ (querySer query ++ fragSer frag)))))) =
      (sch, ':' :: '/' :: '/' ::
        (host ++ (portSer port ++ ('/' :: (pt ++ (querySer query ++ fragSer frag)))))) :=
    spanNot_append_stop _ _ _ _
      (fun x hx => schemeChar_not_colon (hschAll x hx)) (by decide)
  -- authority splitting
  have e2 : spanNot isAuthorityEnd
      (host ++ (portSer port ++ ('/' :: (pt ++ (querySer query ++ fragSer frag))))) =
      (host ++ portSer port, '/' :: (pt ++ (querySer query ++ fragSer frag))) := by
    rw [← List.append_assoc]
    exact spanNot_append_stop _ _ _ _ hauthAll (by decide)
  -- host/port splitting
  have e3 : breakAt ':' (host ++ portSer port) = (host, port) := by
    cases port with
    | none => simpa [portSer] using breakAt_not_mem ':' host hhostColon
    | some p => simpa [portSer] using breakAt_append ':' host p hhostColon
  have e4 : parsePort sch port = some port := by
    cases port with
    | none => rfl
    | some p =>
      have hpe : (!p.isEmpty) = true := (bandSplit (bandSplit hport).1).1
      have hpd : p.all Char.isDigit = true := (bandSplit (bandSplit hport).1).2
      have hpdef := (bandSplit hport).2
      obtain ⟨a, p2, rfl⟩ := List.exists_cons_of_ne_nil
        (show p ≠ [] by
          intro hnil
          rw [hnil] at hpe
          exact absurd hpe (by decide))
      show parsePort sch (some (a :: p2)) = some (some (a :: p2))
      rw [show parsePort sch (some (a :: p2)) =
          if !(a :: p2).all Char.isDigit then none
          else if (sch == str "https" && (a :: p2) == str "443")
               || (sch == str "http" && (a :: p2) == str "80") then some none
          else some (some (a :: p2)) from rfl]
      rw [hpd]
      rw [show (!true) = false from rfl]
      rw [if_neg (by simp)]
      rw [bnotTrue hpdef]
      rw [if_neg (by simp)]
  -- fragment splitting
  have e5 : breakAt '#' ('/' :: (pt ++ (querySer query ++ fragSer frag))) =
      (('/' :: pt) ++ querySer query, frag) := by
    have hbody : ∀ x ∈ ('/' :: pt) ++ querySer query, (x == '#') = false := by
      intro x hx
      rcases List.mem_append.mp hx with h1 | h2
      · exact hpathH x h1
      · exact hqueryH x h2
    cases frag with
    | none =>
      have := breakAt_not_mem '#' (('/' :: pt) ++ querySer query) hbody
      rw [show ('/' : Char) :: (pt ++ (querySer query ++ fragSer (none : Option Chars))) =
          ('/' :: pt) ++ querySer query from by simp [fragSer]]
      exact this
    | some f =>
      have := breakAt_append '#' (('/' :: pt) ++ querySer query) f hbody
      rw [show ('/' : Char) :: (pt ++ (querySer query ++ fragSer (some f))) =
          (('/' :: pt) ++ querySer query) ++ '#' :: f from by simp [fragSer]]
      exact this
  -- query splitting
  have e6 : breakAt '?' ('/' :: (pt ++ querySer query)) = ('/' :: pt, query) := by
    cases query with
    | none => simpa [querySer] using breakAt_not_mem '?' ('/' :: pt) hpathQ
    | some q => simpa [querySer] using breakAt_append '?' ('/' :: pt) q hpathQ
  -- path normalization is the identity
  have hnodot2 : (splitSegs pt).all nodotSeg = true := hnodot
  have e7 : normPath ('/' :: pt) = '/' :: pt := by
    rw [normPath]
    show '/' :: joinSegs (normSegs [] (splitSegs pt)) = '/' :: pt
    rw [normSegs_nodot _ (List.all_eq_true.mp hnodot2)]
    rw [joinSegs_splitSegs]
  -- assemble
  simp [parseAbsolute, e1, e2, e3, e4, e5, e6, e7, hschLower, hhostLower,
    bnotTrue hsne, bnotTrue hhne, hschA]

/-! ## Resolving the `.` reference against a well-formed base -/

theorem splitSegs_all_chars (q : Char → Bool) (l : Chars) (h : l.all q = true) :
    ∀ s ∈ splitSegs l, s.all q = true := by
  induction l with
  | nil =>
    intro s hs
    simp [splitSegs] at hs
    simp [hs]
  | cons c cs ih =>
    intro s hs
    simp only [List.all_cons, Bool.and_eq_true] at h
    have ih2 := ih h.2
    by_cases hc : c = '/'
    · subst hc
      simp only [splitSegs, beq_self_eq_true, if_true] at hs
      rcases List.mem_cons.mp hs with rfl | h2
      · rfl
      · exact ih2 s h2
    · have hcb : (c == '/') = false := beq_eq_false_iff_ne.mpr hc
      obtain ⟨s0, rest, hsr⟩ := List.exists_cons_of_ne_nil (splitSegs_ne_nil cs)
      simp only [splitSegs, hcb, Bool.false_eq_true, if_false, hsr] at hs
      rcases List.mem_cons.mp hs with rfl | h2
      · have hs0 : s0.all q = true := ih2 s0 (hsr ▸ List.mem_cons_self s0 rest)
        simp [List.all_cons, h.1, hs0]
      · exact ih2 s (hsr ▸ List.mem_cons_of_mem s0 h2)

theorem resolveRef_dot (base : URLRec) :
    resolveRef (str ".") base =
      some { base with
               pathname := '/' :: joinSegs (normSegs []
                 ((splitSegs (base.pathname.drop 1)).dropLast ++ [str "."])),
               query := none,
               fragment := none } := rfl

theorem dot_scope_facts (u : URLRec) (h : wf u = true) :
    ∃ w, resolveRef (str ".") u = some w ∧
      wf w = true ∧
      origin w = origin u ∧
      w.pathname.isPrefixOf u.pathname = true := by
  obtain ⟨sch, host, port, path, query, frag⟩ := u
  have hwf := h
  simp only [wf, Bool.and_eq_true] at h
  obtain ⟨⟨⟨⟨⟨⟨⟨⟨hsne, hsch⟩, hhne⟩, hhost⟩, hport⟩, hpath0⟩, hpathc⟩, hnodot⟩, hquery⟩ := h
  obtain ⟨pt, rfl⟩ : ∃ pt, path = '/' :: pt := by
    cases path with
    | nil => exact absurd hpath0 (by decide)
    | cons c pt =>
      refine ⟨pt, ?_⟩
      have : (c == '/') = true := hpath0
      rw [beq_iff_eq.mp this]
  have hnodot2 : (splitSegs pt).all nodotSeg = true := hnodot
  have hptc : pt.all (fun c => c != '?' && c != '#') = true := by
    simp only [List.all_cons, Bool.and_eq_true] at hpathc
    exact hpathc.2
  -- the last segment decomposition of the base path
  have hne := splitSegs_ne_nil pt
  have hdl : (splitSegs pt).dropLast ++ [(splitSegs pt).getLast hne] = splitSegs pt :=
    List.dropLast_append_getLast hne
  have hdlNodot : ∀ s ∈ (splitSegs pt).dropLast, nodotSeg s = true :=
    fun s hs => (List.all_eq_true.mp hnodot2) s (mem_of_mem_dropLast hs)
  have hdotnorm : normSegs [] ((splitSegs pt).dropLast ++ [str "."]) =
      (splitSegs pt).dropLast ++ [[]] :=
    normSegs_dot_end _ hdlNodot
  refine ⟨_, resolveRef_dot _, ?_, ?_, ?_⟩
  · -- well-formedness of the resolved scope record
    show wf ⟨sch, host, port,
      '/' :: joinSegs (normSegs [] ((splitSegs (('/' :: pt).drop 1)).dropLast ++ [str "."])),
      none, none⟩ = true
    rw [show (('/' : Char) :: pt).drop 1 = pt from rfl, hdotnorm]
    simp only [wf, Bool.and_eq_true]
    refine ⟨⟨⟨⟨⟨⟨⟨⟨hsne, hsch⟩, hhne⟩, hhost⟩, hport⟩, rfl⟩, ?_⟩, ?_⟩, trivial⟩
    · -- no query or hash characters in the new path
      show (('/' :: joinSegs ((splitSegs pt).dropLast ++ [[]])).all
        fun c => c != '?' && c != '#') = true
      rw [List.all_cons]
      rw [show (((('/' : Char) != '?') && ('/' != '#')) : Bool) = true from by decide]
      rw [Bool.true_and]
      refine joinSegs_all _ _ (by decide) ?_
      intro s hs
      rcases List.mem_append.mp hs with h1 | h2
      · exact splitSegs_all_chars _ pt hptc s (mem_of_mem_dropLast h1)
      · simp only [List.mem_singleton] at h2
        simp [h2]
    · -- the new path splits back into dot-free segments
      show ((splitSegs (('/' :: joinSegs ((splitSegs pt).dropLast ++ [[]])).drop 1)).all
        nodotSeg) = true
      rw [show (('/' : Char) :: joinSegs ((splitSegs pt).dropLast ++ [[]])).drop 1 =
        joinSegs ((splitSegs pt).dropLast ++ [[]]) from rfl]
      rw [splitSegs_joinSegs _ (by simp) ?_]
      · refine List.all_eq_true.mpr ?_
        intro s hs
        rcases List.mem_append.mp hs with h1 | h2
        · exact hdlNodot s h1
        · simp only [List.mem_singleton] at h2
          simp [h2, nodotSeg, str]
      · intro s hs
        rcases List.mem_append.mp hs with h1 | h2
        · exact splitSegs_noSlash pt s (mem_of_mem_dropLast h1)
        · simp only [List.mem_singleton] at h2
          simp [h2, noSlash]
  · -- origin is untouched
    rfl
  · -- the resolved scope path is a string prefix of the base path
    show (('/' :: joinSegs (normSegs []
        ((splitSegs (('/' :: pt).drop 1)).dropLast ++ [str "."]))).isPrefixOf
      ('/' :: pt)) = true
    rw [show (('/' : Char) :: pt).drop 1 = pt from rfl, hdotnorm]
    have hpt2 : pt = joinSegs ((splitSegs pt).dropLast ++ [(splitSegs pt).getLast hne]) := by
      rw [hdl, joinSegs_splitSegs]
    rcases hdl0 : (splitSegs pt).dropLast with _ | ⟨d0, dl2⟩
    · -- the base path has a single segment: the scope path is "/"
      rw [hdl0, List.nil_append] at hpt2
      rw [show joinSegs [(splitSegs pt).getLast hne] = (splitSegs pt).getLast hne from rfl]
        at hpt2
      rw [List.nil_append]
      rw [show joinSegs [([] : Chars)] = [] from rfl]
      rw [hpt2]
      exact isPrefixOf_append_self ['/'] _
    · -- general case: scope path is dir ++ "/", base path dir ++ "/" ++ last
      rw [hdl0] at hpt2
      rw [joinSegs_append_single _ _ (by simp)] at hpt2
      rw [joinSegs_append_single _ _ (by simp)]
      rw [hpt2]
      have heq : ('/' :: (joinSegs (d0 :: dl2) ++ '/' :: (splitSegs pt).getLast hne)) =
          ('/' :: (joinSegs (d0 :: dl2) ++ '/' :: ([] : Chars))) ++ (splitSegs pt).getLast hne := by
        simp
      rw [heq]
      exact isPrefixOf_append_self _ _

/-! ## More boolean bridges -/

theorem bnotFalse {a : Bool} (h : (!a) = false) : a = true := by simpa using h

theorem bneFalseEq {a b : Chars} (h : (a != b) = false) : a = b := by simpa using h

theorem scopeCondFalse {su sc : URLRec}
    (h : ((origin su != origin sc) || !(sc.pathname.isPrefixOf su.pathname)) = false) :
    origin su = origin sc ∧ sc.pathname.isPrefixOf su.pathname = true := by
  obtain ⟨h1, h2⟩ := Bool.or_eq_false_iff.mp h
  exact ⟨bneFalseEq h1, bnotFalse h2⟩

/-! ## Shape of a successful manifest load -/

theorem obtainManifest_ok_shape (m : Manifest) (doc : Chars) (m2 : Manifest)
    (h : obtainManifest m doc = .ok m2) :
    ∃ s c su sc du,
      resolveStartUrl m doc = .ok s ∧
      resolveScope m doc s = .ok c ∧
      parseAbsolute s = some su ∧
      parseAbsolute c = some sc ∧
      parseAbsolute doc = some du ∧
      (origin su != origin du) = false ∧
      ((origin su != origin sc) || !(sc.pathname.isPrefixOf su.pathname)) = false ∧
      m2 = { m with start_url := some s, scope := some c } := by
  unfold obtainManifest at h
  cases hrs : resolveStartUrl m doc with
  | error e => rw [hrs] at h; simp at h
  | ok s =>
    rw [hrs] at h
    simp only [] at h
    cases hrc : resolveScope m doc s with
    | error e => rw [hrc] at h; simp at h
    | ok c =>
      rw [hrc] at h
      simp only [] at h
      cases hvv : validateManifest s c doc with
      | error e => rw [hvv] at h; simp at h
      | ok u0 =>
        rw [hvv] at h
        simp only [Except.ok.injEq] at h
        unfold validateManifest at hvv
        cases hp1 : parseAbsolute s with
        | none => rw [hp1] at hvv; simp at hvv
        | some su =>
          rw [hp1] at hvv
          cases hp2 : parseAbsolute c with
          | none => rw [hp2] at hvv; simp at hvv
          | some sc =>
            rw [hp2] at hvv
            cases hp3 : parseAbsolute doc with
            | none => rw [hp3] at hvv; simp at hvv
            | some du =>
              rw [hp3] at hvv
              simp only [] at hvv
              by_cases hc1 : (origin su != origin du) = true
              · rw [if_pos hc1] at hvv; simp at hvv
              · rw [if_neg hc1] at hvv
                by_cases hc2 : ((origin su != origin sc)
                    || !(sc.pathname.isPrefixOf su.pathname)) = true
                · rw [if_pos hc2] at hvv; simp at hvv
                · exact ⟨s, c, su, sc, du, rfl, hrc, hp1, hp2, rfl,
                    Bool.not_eq_true _ ▸ hc1, Bool.not_eq_true _ ▸ hc2, h.symm⟩

/-! ## Claim C2 -/

/-- Claim C2: scope containment validation succeeds exactly when the
candidate start URL's origin equals the scope's origin and the scope's
pathname is a raw string prefix of the start URL's pathname (not
path-segment aware); otherwise it yields the out-of-scope error; and every
manifest accepted at load time satisfies this origin-sharing and
path-prefix invariant. -/
theorem c2_scope_containment :
    (∀ value scopeStr : Chars, ∀ su sc : URLRec, value ≠ [] →
      parseAbsolute value = some su → parseAbsolute scopeStr = some sc →
      ((startUrlValidation value scopeStr = .valid ↔
          origin su = origin sc ∧ sc.pathname.isPrefixOf su.pathname = true) ∧
        (startUrlValidation value scopeStr ≠ .valid →
          startUrlValidation value scopeStr = .outOfScope))) ∧
    (∀ (m : Manifest) (doc : Chars) (m2 : Manifest), obtainManifest m doc = .ok m2 →
      ∃ s c su sc, m2.start_url = some s ∧ m2.scope = some c ∧
        parseAbsolute s = some su ∧ parseAbsolute c = some sc ∧
        origin su = origin sc ∧ sc.pathname.isPrefixOf su.pathname = true) := by
  constructor
  · intro value scopeStr su sc hv h2 h3
    have hie : value.isEmpty = false := by
      cases value
      · exact absurd rfl hv
      · rfl
    have hval : startUrlValidation value scopeStr =
        if (origin su != origin sc || !(sc.pathname.isPrefixOf su.pathname)) = true
        then .outOfScope else .valid := by
      unfold startUrlValidation
      rw [hie]
      simp only [Bool.false_eq_true, if_false]
      rw [h2]
      simp only []
      rw [h3]
    constructor
    · rw [hval]
      by_cases hc : (origin su != origin sc || !(sc.pathname.isPrefixOf su.pathname)) = true
      · rw [if_pos hc]
        constructor
        · intro h; exact absurd h (by simp)
        · rintro ⟨ho, hp⟩
          rw [ho, hp] at hc
          simp at hc
      · rw [if_neg hc]
        obtain ⟨ho, hp⟩ := scopeCondFalse (Bool.not_eq_true _ ▸ hc)
        simp [ho, hp]
    · rw [hval]
      by_cases hc : (origin su != origin sc || !(sc.pathname.isPrefixOf su.pathname)) = true
      · rw [if_pos hc]; intro _; rfl
      · rw [if_neg hc]; intro hne; exact absurd rfl hne
  · intro m doc m2 h
    obtain ⟨s, c, su, sc, du, hrs, hrc, hp1, hp2, hp3, hb1, hb2, hm⟩ :=
      obtainManifest_ok_shape m doc m2 h
    obtain ⟨ho, hp⟩ := scopeCondFalse hb2
    subst hm
    exact ⟨s, c, su, sc, rfl, rfl, hp1, hp2, ho, hp⟩

/-- Witness for C2 at a concrete input, also exhibiting the raw (not
path-segment aware) prefix semantics: scope path `/a` accepts start path
`/ab`. -/
theorem c2_witness :
    startUrlValidation (str "https://x.test/ab") (str "https://x.test/a") = .valid :=
  ((c2_scope_containment.1 (str "https://x.test/ab") (str "https://x.test/a")
    ⟨str "https", str "x.test", none, str "/ab", none, none⟩
    ⟨str "https", str "x.test", none, str "/a", none, none⟩
    (by decide) rfl rfl).1).mpr ⟨rfl, by decide⟩

/-! ## Claim C4 -/

/-- Claim C4: at manifest load time, a resolved start URL whose origin
differs from the document URL's origin fails with the cross-origin error
(checked before the scope containment check), while the user-edit
validator `startUrlValidation` never consults the document URL: a
candidate passing the scope rules is accepted no matter what the document
origin is — the document URL is not even a parameter of the validator. -/
theorem c4_cross_origin_binding :
    (∀ (m : Manifest) (doc s c : Chars) (su sc du : URLRec),
      resolveStartUrl m doc = .ok s →
      resolveScope m doc s = .ok c →
      parseAbsolute s = some su → parseAbsolute c = some sc →
      parseAbsolute doc = some du →
      origin su ≠ origin du →
      obtainManifest m doc = .error .crossOriginStartUrl) ∧
    (∀ (value scopeStr : Chars) (su sc : URLRec),
      parseAbsolute value = some su → parseAbsolute scopeStr = some sc →
      origin su = origin sc → sc.pathname.isPrefixOf su.pathname = true →
      startUrlValidation value scopeStr = .valid) := by
  constructor
  · intro m doc s c su sc du hrs hrc hp1 hp2 hp3 hne
    have hvv : validateManifest s c doc = .error .crossOriginStartUrl := by
      unfold validateManifest
      rw [hp1, hp2, hp3]
      simp only []
      rw [if_pos (bne_iff_ne.mpr hne)]
    unfold obtainManifest
    rw [hrs]
    simp only []
    rw [hrc]
    simp only []
    rw [hvv]
  · intro value scopeStr su sc hp1 hp2 ho hpf
    by_cases hie : value.isEmpty = true
    · unfold startUrlValidation
      rw [if_pos hie]
    · unfold startUrlValidation
      rw [if_neg hie]
      rw [hp1]
      simp only []
      rw [hp2]
      simp only []
      rw [ho, hpf]
      simp

/-- Witness for C4: a manifest whose start URL resolves to a different
origin than the document is rejected with the cross-origin error. -/
theorem c4_witness :
    obtainManifest { emptyManifest with start_url := some (str "https://evil.test/app") }
      (str "https://x.test/") = .error .crossOriginStartUrl :=
  c4_cross_origin_binding.1 _ _ (str "https://evil.test/app") (str "https://evil.test/")
    ⟨str "https", str "evil.test", none, str "/app", none, none⟩
    ⟨str "https", str "evil.test", none, str "/", none, none⟩
    ⟨str "https", str "x.test", none, str "/", none, none⟩
    rfl rfl rfl rfl rfl (by decide)

/-! ## Claim C10 -/

/-- Claim C10: a successful `obtainManifest` returns the fetched manifest
with only `start_url` and `scope` replaced (each by an absolute URL string
that parses); all other fields are returned unchanged. -/
theorem c10_frame_effect (m : Manifest) (doc : Chars) (m2 : Manifest)
    (h : obtainManifest m doc = .ok m2) :
    m2.name = m.name ∧ m2.short_name = m.short_name ∧ m2.description = m.description ∧
    m2.categories = m.categories ∧ m2.keywords = m.keywords ∧
    (∃ s su, m2.start_url = some s ∧ parseAbsolute s = some su) ∧
    (∃ c sc, m2.scope = some c ∧ parseAbsolute c = some sc) := by
  obtain ⟨s, c, su, sc, du, hrs, hrc, hp1, hp2, hp3, hb1, hb2, hm⟩ :=
    obtainManifest_ok_shape m doc m2 h
  subst hm
  exact ⟨rfl, rfl, rfl, rfl, rfl, ⟨s, su, rfl, hp1⟩, ⟨c, sc, rfl, hp2⟩⟩

/-- Witness for C10 on a concrete manifest with all metadata fields. -/
theorem c10_witness :
    c10Resolved.name = c10Manifest.name ∧
    c10Resolved.short_name = c10Manifest.short_name ∧
    c10Resolved.description = c10Manifest.description ∧
    c10Resolved.categories = c10Manifest.categories ∧
    c10Resolved.keywords = c10Manifest.keywords ∧
    (∃ s su, c10Resolved.start_url = some s ∧ parseAbsolute s = some su) ∧
    (∃ c sc, c10Resolved.scope = some c ∧ parseAbsolute c = some sc) :=
  c10_frame_effect c10Manifest (str "https://x.test/app/page") c10Resolved rfl

/-! ## Claim C1 -/

/-- Claim C1 (code bug): the source's own comment says the start URL is
parsed "with the manifest URL as a base", but line 18 passes `documentUrl`
as the base, and the `manifestUrl` parameter is unused after the fetch.
At a concrete input where the two bases differ, the code resolves
`app.html` against the document URL, not the manifest URL: the claim's
required result differs from what the code computes.  The absent-case half
of the claim (no `start_url` gives the document URL) does hold. -/
theorem c1_start_url_base :
    resolveStartUrl { emptyManifest with start_url := some (str "app.html") }
      (str "https://x.test/doc/page") = .ok (str "https://x.test/doc/app.html") ∧
    (newURL (str "app.html") (str "https://x.test/static/manifest.json")).map href =
      some (str "https://x.test/static/app.html") ∧
    str "https://x.test/doc/app.html" ≠ str "https://x.test/static/app.html" ∧
    resolveStartUrl emptyManifest (str "https://x.test/doc/page") =
      .ok (str "https://x.test/doc/page") :=
  ⟨rfl, rfl, by decide, rfl⟩

/-! ## Claim C3 -/

/-- Claim C3: the response discrimination applied at every native call
site: an `Error` type fails with the peer-supplied data as the message;
a present type differing from the caller's expected tag fails with the
protocol-mismatch error naming the received type; otherwise the data is
returned. -/
theorem c3_response_discrimination {α : Type} (expected : Chars) (r : NativeResponse α) :
    (r.type = str "Error" →
      handleNativeResponse expected r = .error (.nativePeerError r.data)) ∧
    (r.type ≠ str "Error" → r.type ≠ expected →
      handleNativeResponse expected r = .error (.protocolMismatch r.type)) ∧
    (r.type ≠ str "Error" → r.type = expected →
      handleNativeResponse expected r = .ok r.data) := by
  refine ⟨?_, ?_, ?_⟩
  · intro h1
    simp [handleNativeResponse, h1]
  · intro h1 h2
    simp [handleNativeResponse, h1, h2]
  · intro h1 h2
    subst h2
    simp [handleNativeResponse, h1]

/-- Witness for C3 at the three concrete response shapes of the spec's
test vector (expected tag `SiteList`). -/
theorem c3_witness :
    handleNativeResponse (str "SiteList")
      (⟨str "Error", str "boom"⟩ : NativeResponse Chars) =
      .error (.nativePeerError (str "boom")) ∧
    handleNativeResponse (str "SiteList")
      (⟨str "Unexpected", str "x"⟩ : NativeResponse Chars) =
      .error (.protocolMismatch (str "Unexpected")) ∧
    handleNativeResponse (str "SiteList")
      (⟨str "SiteList", str "ok"⟩ : NativeResponse Chars) = .ok (str "ok") :=
  ⟨(c3_response_discrimination (str "SiteList") _).1 rfl,
   (c3_response_discrimination (str "SiteList") _).2.1 (by decide) (by decide),
   (c3_response_discrimination (str "SiteList") _).2.2 (by decide) rfl⟩

/-! ## Claim C6 -/

/-- Counterexample to C6 as stated: the diffing compares the
`toString()` (comma-join) of the two lists, not the lists element-wise,
so the distinct lists `["a,b"]` and `["a", "b"]` compare equal and the
empty override is sent even though the user selection differs from the
manifest list. -/
theorem c6_counterexample :
    overrideIfChanged [str "a,b"] [str "a", str "b"] = [] ∧
    ([str "a,b"] : List Chars) ≠ [str "a", str "b"] :=
  ⟨rfl, by decide⟩

/-- Claim C6 as amended: the comparison is by comma-joined serialization.
If the joins agree the override is empty (in particular whenever the lists
are equal element-wise, confirming the first half of the claim); if the
joins differ the full user selection is sent. -/
theorem c6_amended_diffing (user manifestList : List Chars) :
    (joinComma user = joinComma manifestList →
      overrideIfChanged user manifestList = []) ∧
    (joinComma user ≠ joinComma manifestList →
      overrideIfChanged user manifestList = user) ∧
    (user = manifestList → overrideIfChanged user manifestList = []) := by
  refine ⟨?_, ?_, ?_⟩
  · intro h
    simp [overrideIfChanged, h]
  · intro h
    simp [overrideIfChanged, bne_iff_ne, h]
  · intro h
    subst h
    simp [overrideIfChanged]

/-- Witness for the amended C6 at concrete selections. -/
theorem c6_witness :
    overrideIfChanged [str "cat"] [str "cat"] = [] ∧
    overrideIfChanged [str "cat"] [str "dog"] = [str "cat"] :=
  ⟨(c6_amended_diffing [str "cat"] [str "cat"]).2.2 rfl,
   (c6_amended_diffing [str "cat"] [str "dog"]).2.1 (by decide)⟩

/-! ## Claim C7 -/

/-- Counterexample to C7 as stated: after a failed `InstallSite` call the
catch block shows the error text and toast but never re-enables the
submit button (`submit.disabled = false` appears nowhere in the handler),
so the flow does not return to the Ready state. -/
theorem c7_counterexample :
    (submitFlow readyUI errorResponse).submitDisabled ≠ false ∧
    (submitFlow readyUI errorResponse).errorToastVisible = true ∧
    (submitFlow readyUI errorResponse).errorText = str "boom" :=
  ⟨by decide, rfl, rfl⟩

/-- Claim C7 as amended: on any failed `InstallSite` call the error
message is shown (error text set and toast visible) but the submit button
stays disabled with the in-progress label, so no retry is possible. -/
theorem c7_amended_failure (ui : SubmitUI) (r : NativeResponse Chars)
    (e : PeerFailure Chars) (h : installSiteResponse r = .error e) :
    submitFlow ui r =
      { ui with
          submitDisabled := true
          submitText := str "Installing web app..."
          errorText := peerErrorMessage e
          errorToastVisible := true } := by
  simp only [submitFlow, h]

/-- Witness for the amended C7 at a concrete peer error. -/
theorem c7_witness :
    submitFlow readyUI errorResponse =
      { readyUI with
          submitDisabled := true
          submitText := str "Installing web app..."
          errorText := peerErrorMessage (.nativePeerError (str "boom"))
          errorToastVisible := true } :=
  c7_amended_failure readyUI errorResponse (.nativePeerError (str "boom")) rfl

/-! ## Claim C8 -/

/-- Counterexample to C8 as stated: after a successful profile creation
the new profile `p2` is selected, but `lastProfileSelection` still holds
the previous selection `p1` (the programmatic `add` fires no `change`
event), so re-opening and cancelling the create dialog reverts the select
to `p1`, not to the newly created `p2`. -/
theorem c8_counterexample :
    (profileCreateConfirm (profileChange oneProfileSelect (str "create-new-profile"))
        (str "New") (str "p2")).value = str "p2" ∧
    (profileCreateConfirm (profileChange oneProfileSelect (str "create-new-profile"))
        (str "New") (str "p2")).lastProfileSelection ≠ str "p2" ∧
    (profileCancel (profileChange (profileCreateConfirm
        (profileChange oneProfileSelect (str "create-new-profile"))
        (str "New") (str "p2")) (str "create-new-profile"))).value = str "p1" :=
  ⟨rfl, by decide, rfl⟩

/-- Claim C8 as amended: a successful creation appends the new profile as
an option and selects it, but the recorded last selection is unchanged,
so a later cancel of the dialog reverts the select to the selection
recorded before the creation. -/
theorem c8_amended_profile_creation (st : ProfileSelect) (pname pid : Chars) :
    (profileCreateConfirm st pname pid).options = st.options ++ [(pname, pid)] ∧
    (profileCreateConfirm st pname pid).value = pid ∧
    (profileCreateConfirm st pname pid).lastProfileSelection = st.lastProfileSelection ∧
    (profileCancel (profileChange (profileCreateConfirm st pname pid)
        (str "create-new-profile"))).value = st.lastProfileSelection := by
  refine ⟨rfl, rfl, rfl, ?_⟩
  simp [profileChange, profileCancel, profileCreateConfirm]

/-! ## Claim C9 -/

/-- Claim C9 (code bug): when the manifest has no `categories` (or
`keywords`) field, the submit handler evaluates
`manifestCategories.toString()` on `undefined` and throws a `TypeError`
before the install request is assembled, instead of defaulting the field
to the empty sequence: assembly is not total. -/
theorem c9_categories_crash :
    assembleInstallParams (str "https://x.test/manifest.json") (str "https://x.test/")
      [] [] [] [] [] []
      { emptyManifest with
          name := some (str "Example")
          start_url := some (str "https://x.test/")
          scope := some (str "https://x.test/") } = .error .typeError := rfl

/-! ## Claim C5 -/

theorem href_cons (u : URLRec) (h : wf u = true) : ∃ c cs, href u = c :: cs := by
  obtain ⟨sch, host, port, path, query, frag⟩ := u
  simp only [wf, Bool.and_eq_true] at h
  cases sch with
  | nil => exact absurd h.1.1.1.1.1.1.1.1 (by decide)
  | cons c cs => exact ⟨c, _, rfl⟩

/-- Counterexample to C5 as stated: with `start_url` and `scope` both
absent and document URL `https://x.test/app/page`, the resolved scope is
`https://x.test/app/` — the `.`-resolution strips the last path segment —
which is not the document URL, contradicting the claimed
`start_url == scope == documentUrl`. -/
theorem c5_counterexample :
    obtainManifest emptyManifest (str "https://x.test/app/page") =
      .ok { emptyManifest with
              start_url := some (str "https://x.test/app/page")
              scope := some (str "https://x.test/app/") } ∧
    str "https://x.test/app/" ≠ str "https://x.test/app/page" :=
  ⟨rfl, by decide⟩

/-- Claim C5 as amended: for a manifest with `start_url` and `scope` both
absent and a normalized, parseable document URL, resolution succeeds with
`start_url` equal to the document URL and `scope` equal to `.` resolved
against the (already-resolved) start URL — not, in general, the document
URL itself — and re-running resolution on the already-resolved manifest
yields the same manifest (idempotence). -/
theorem c5_amended (m : Manifest) (doc : Chars) (u : URLRec)
    (hstart : m.start_url = none) (hscope : m.scope = none)
    (hparse : parseAbsolute doc = some u) (hwf : wf u = true) (hnorm : href u = doc) :
    ∃ w m2,
      newURL (str ".") doc = some w ∧
      obtainManifest m doc = .ok m2 ∧
      m2.start_url = some doc ∧
      m2.scope = some (href w) ∧
      obtainManifest m2 doc = .ok m2 := by
  obtain ⟨w, hw, hwfW, horigin, hpfx⟩ := dot_scope_facts u hwf
  have hpw : parseAbsolute (href w) = some w := parse_href w hwfW
  have hnew : newURL (str ".") doc = some w := by
    unfold newURL
    rw [hparse]
    simp only []
    exact hw
  have hrs : resolveStartUrl m doc = .ok doc := by
    unfold resolveStartUrl
    rw [hstart]
    rw [if_neg (by decide)]
  have hrc : resolveScope m doc doc = .ok (href w) := by
    unfold resolveScope
    rw [hscope]
    rw [if_neg (by decide)]
    rw [hnew]
  have hval : validateManifest doc (href w) doc = .ok () := by
    unfold validateManifest
    rw [hparse, hpw]
    simp only []
    rw [horigin]
    rw [bne_self_eq_false]
    rw [hpfx]
    simp
  have hob : obtainManifest m doc =
      .ok { m with start_url := some doc, scope := some (href w) } := by
    unfold obtainManifest
    rw [hrs]
    simp only []
    rw [hrc]
    simp only []
    rw [hval]
  obtain ⟨dc, dcs, hdoc⟩ : ∃ c2 cs, doc = c2 :: cs := by
    cases hd : doc with
    | nil =>
      rw [hd] at hparse
      exact absurd hparse (by simp [parseAbsolute, spanNot])
    | cons a b => exact ⟨a, b, rfl⟩
  obtain ⟨hc0, hcs0, hhw⟩ : ∃ c2 cs, href w = c2 :: cs := href_cons w hwfW
  have hnew2 : newURL doc doc = some u := by
    unfold newURL
    rw [hparse]
    simp only []
    unfold resolveRef
    rw [hparse]
  have hrs2 : resolveStartUrl
      { m with start_url := some doc, scope := some (href w) } doc = .ok doc := by
    unfold resolveStartUrl
    rw [show ({ m with start_url := some doc, scope := some (href w) } :
      Manifest).start_url = some doc from rfl]
    have htd : truthy (some doc) = true := by rw [hdoc]; rfl
    rw [if_pos htd]
    rw [show (some doc).getD [] = doc from rfl]
    rw [hnew2]
    simp only []
    rw [hnorm]
  have hrc2 : resolveScope
      { m with start_url := some doc, scope := some (href w) } doc doc =
      .ok (href w) := by
    unfold resolveScope
    rw [show ({ m with start_url := some doc, scope := some (href w) } :
      Manifest).scope = some (href w) from rfl]
    have htw : truthy (some (href w)) = true := by rw [hhw]; rfl
    rw [if_pos htw]
    rw [show (some (href w)).getD [] = href w from rfl]
    have hnw : newURL (href w) doc = some w := by
      unfold newURL
      rw [hparse]
      simp only []
      unfold resolveRef
      rw [hpw]
    rw [hnw]
  have hob2 : obtainManifest
      { m with start_url := some doc, scope := some (href w) } doc =
      .ok { m with start_url := some doc, scope := some (href w) } := by
    unfold obtainManifest
    rw [hrs2]
    simp only []
    rw [hrc2]
    simp only []
    rw [hval]
  exact ⟨w, { m with start_url := some doc, scope := some (href w) },
    hnew, hob, rfl, rfl, hob2⟩

/-- Witness for the amended C5 at a concrete document URL whose path has
more than one segment (so the scope genuinely differs from the document
URL there). -/
theorem c5_witness :
    ∃ w m2,
      newURL (str ".") (str "https://x.test/app/page") = some w ∧
      obtainManifest emptyManifest (str "https://x.test/app/page") = .ok m2 ∧
      m2.start_url = some (str "https://x.test/app/page") ∧
      m2.scope = some (href w) ∧
      obtainManifest m2 (str "https://x.test/app/page") = .ok m2 :=
  c5_amended emptyManifest (str "https://x.test/app/page")
    ⟨str "https", str "x.test", none, str "/app/page", none, none⟩
    rfl rfl rfl rfl rfl
